import Mathlib

/-!
Verification of the akubra S3 proxy's sharding, consistency and
reconciliation components.  Go source files are embedded shallowly:
strings are `String` or `List Char`, machine integers are `Int`/`Nat`,
fallible code returns `Option`/`Except`, and external collaborators
(hash ring, YAML parser, S3 transport) are passed in as oracle
parameters.  Every definition mirrors the corresponding Go function;
spec-modelled definitions (for repository code whose implementation is
not part of the source tree) are marked as such in their doc comments.
-/

namespace Akubra

/-! ## Go string helpers

`strings.Split(s, "/")` and `strings.Trim(s, "/")` as used by
`ShardsRing.isBucketPath`.  Paths are modelled as `List Char`. -/

/-- `strings.Split` with the one-character separator `sep`:
`splitOnChar sep []` is `[[]]`, matching Go's `Split("", sep) == [""]`. -/
def splitOnChar (sep : Char) : List Char → List (List Char)
  | [] => [[]]
  | c :: rest =>
    match splitOnChar sep rest with
    | [] => [[]]
    | g :: gs => if c = sep then [] :: g :: gs else (c :: g) :: gs

/-- `strings.Trim(s, "/")`: remove leading and trailing `'/'` characters. -/
def trimSlashes (s : List Char) : List Char :=
  ((s.dropWhile (fun c => c = '/')).reverse.dropWhile (fun c => c = '/')).reverse

/-! ## Sharding: `ShardsRing` (internal/akubra/sharding/ring.go) -/

/-- `ShardsRing.isBucketPath`: trim slashes, split on `'/'`, and test for
exactly one segment. -/
def isBucketPath (path : List Char) : Bool :=
  (splitOnChar '/' (trimSlashes path)).length == 1

/-- An HTTP response as far as the sharding code inspects it. -/
structure HttpResponse where
  statusCode : Int
  deriving DecidableEq, Repr

/-- An HTTP request as far as the sharding code inspects it: method,
URL path, raw query string, and the set of header names present. -/
structure HttpRequest where
  method : String
  path : List Char
  rawQuery : List Char
  headerNames : List String
  deriving DecidableEq, Repr

/-- The header suppressing regression on transport failure. -/
def noTimeoutRegressionHeader : String := "X-Akubra-No-Regression-On-Failure"

/-- `shouldCallRegression(request, response, err)`: with no error and a
response present, regress iff `400 < StatusCode < 500`; otherwise
regress iff the request lacks `X-Akubra-No-Regression-On-Failure`. -/
def shouldCallRegression (request : HttpRequest) (response : Option HttpResponse)
    (err : Option String) : Bool :=
  match err, response with
  | none, some resp => decide (400 < resp.statusCode) && decide (resp.statusCode < 500)
  | _, _ => !(request.headerNames.contains noTimeoutRegressionHeader)

/-- `RingFactory.createRegressionMap` inner loop: `previousCluster`
starts at the given shard and each shard is mapped to the preceding
value of `previousCluster`. -/
def regressionMapLoop : String → List String → List (String × String)
  | _, [] => []
  | prev, c :: rest => (c, prev) :: regressionMapLoop c rest

/-- `RingFactory.createRegressionMap`: each shard maps to its
predecessor in the configured shard list; the first shard maps to the
last.  `none` only when the shard list is empty (the Go code would
panic indexing `Shards[len-1]`). -/
def createRegressionMap (shards : List String) : Option (List (String × String)) :=
  match shards.getLast? with
  | none => none
  | some lastName => some (regressionMapLoop lastName shards)

/-- `ShardsRing.regressionCall` as the list of shard names contacted, in
order.  `trig cl` abstracts `shouldCallRegression` applied to shard
`cl`'s round-trip outcome; `regMap` is `clusterRegressionMap`; `orig`
is `origClusterName`.  The Go recursion needs no fuel because the
regression map is a cycle; `fuel` makes the recursion structural and is
proved irrelevant once it reaches the number of shards. -/
def regressionWalk (regMap : List (String × String)) (trig : String → Bool)
    (orig : String) : String → Nat → List String
  | cl, 0 => [cl]
  | cl, fuel + 1 =>
    cl ::
      (if trig cl then
        match regMap.lookup cl with
        | some rcl => if rcl ≠ orig then regressionWalk regMap trig orig rcl fuel else []
        | none => []
      else [])

/-- A shards ring: the configured shard-name order, the consistent-hash
pick (an oracle for `hashring.GetNode` + `shardClusterMap`), and the
regression map. -/
structure ShardsRingM where
  shardNames : List String
  pickFn : List Char → Option String
  regressionMap : List (String × String)

/-- The shards contacted by `ShardsRing.DoRequest`.  A DELETE or a
bucket path goes to the all-clusters round-tripper; otherwise the
picked shard starts a regression walk.  Modelled from the spec: the
all-clusters round-tripper (`storages.MergeShards`, not in the source
tree) performs the round trip on every shard of the region exactly
once, in the configured order.  `trig` abstracts each shard's
round-trip outcome as consumed by `shouldCallRegression`.  `none` when
`Pick` fails. -/
def doRequestContacted (sr : ShardsRingM) (req : HttpRequest)
    (trig : String → Bool) : Option (List String) :=
  if req.method == "DELETE" || isBucketPath req.path then
    some sr.shardNames
  else
    match sr.pickFn req.path with
    | none => none
    | some cl => some (regressionWalk sr.regressionMap trig cl cl sr.shardNames.length)

/-! ## Version fetcher (internal/brim/filter, `S3VersionFetcher.Fetch`) -/

/-- `StorageState`: whether an object is present on a storage, and in
which version. -/
structure StorageStateM where
  storageEndpoint : String
  version : Int
  objectNotFound : Bool
  deriving DecidableEq, Repr

/-- What `goamz`'s `bucket.Head` hands back to `Fetch`: either an error
value (carrying its message) or a response with a status code, a status
line and headers. -/
structure HeadResponse where
  statusCode : Int
  status : String
  headers : List (String × String)
  deriving DecidableEq, Repr

/-- Outcome of the HEAD round trip. -/
inductive HeadOutcome where
  | errRes (msg : String)
  | okRes (resp : HeadResponse)
  deriving DecidableEq, Repr

/-- `http.Header.Get`: the first value for the name, `""` if absent. -/
def headerGet (headers : List (String × String)) (name : String) : String :=
  match headers.lookup name with
  | some v => v
  | none => ""

/-- The numeric value of a decimal digit character. -/
def digitVal (c : Char) : Option Nat :=
  if '0' ≤ c ∧ c ≤ '9' then some (c.toNat - '0'.toNat) else none

/-- Decimal digits to a natural number; `none` on the empty list or any
non-digit. -/
def parseDigits (cs : List Char) : Option Nat :=
  match cs with
  | [] => none
  | _ =>
    cs.foldl
      (fun acc c =>
        match acc, digitVal c with
        | some n, some d => some (n * 10 + d)
        | _, _ => none)
      (some 0)

/-- `strconv.ParseInt(s, 10, 64)`: optional sign, nonempty digits,
result within the signed 64-bit range. -/
def parseInt64 (s : List Char) : Option Int :=
  let signed : Int × List Char :=
    match s with
    | '+' :: rest => (1, rest)
    | '-' :: rest => (-1, rest)
    | _ => (1, s)
  match parseDigits signed.2 with
  | none => none
  | some n =>
    let v : Int := signed.1 * (n : Int)
    if -(2 ^ 63) ≤ v ∧ v ≤ 2 ^ 63 - 1 then some v else none

/-- `S3VersionFetcher.Fetch`: a `"404 Not Found"` error becomes an
absent state with version `-1`; any other error propagates; a non-200
status fails; status 200 parses the configured version header as an
int64, failing if it does not parse. -/
def s3VersionFetcherFetch (versionHeaderName : String) (s3Endpoint : String)
    (outcome : HeadOutcome) : Except String StorageStateM :=
  match outcome with
  | .errRes msg =>
    if msg == "404 Not Found" then
      .ok { storageEndpoint := s3Endpoint, version := -1, objectNotFound := true }
    else
      .error msg
  | .okRes resp =>
    if resp.statusCode ≠ 200 then
      .error ("bad response, status code = " ++ toString resp.statusCode ++
        ", message = " ++ resp.status)
    else
      match parseInt64 (headerGet resp.headers versionHeaderName).toList with
      | none => .error "strconv.ParseInt: invalid syntax"
      | some v =>
        .ok { storageEndpoint := s3Endpoint, version := v, objectNotFound := false }

/-! ## Watchdog records (watchdog/watchdog.go and internal/akubra/watchdog) -/

/-- `watchdog.Method`. -/
inductive Method where
  | PUT
  | DELETE
  deriving DecidableEq, Repr

/-- `time.Minute * 5`, in nanoseconds. -/
def fiveMinutes : Int := 5 * 60 * 1000000000

/-- `watchdog.ConsistencyRecord` (the fields `CreateRecordFor` fills). -/
structure ConsistencyRecordGo where
  objectID : String
  method : Method
  cluster : String
  accessKey : String
  requestId : String
  executionDate : Int
  isReflectedOnBackends : Bool
  deriving DecidableEq, Repr

/-- The body of `watchdog.CreateRecordFor` after its method switch:
extraction failures error out, otherwise the record is built with
`ExecutionDate = now + fiveMinutes`. -/
def createRecordForMethod (method : Method) (bucket : String) (key : String)
    (accessKey : String) (clusterName : Option String) (requestId : Option String)
    (now : Int) : Except String ConsistencyRecordGo :=
  if bucket = "" ∨ key = "" then .error "failed to extract bucket/key from path"
  else if accessKey = "" then .error "failed to extract access key"
  else
    match clusterName with
    | none => .error "cluster name is not present in context"
    | some cn =>
      match requestId with
      | none => .error "reqId name is not present in context"
      | some rid =>
        .ok { objectID := bucket ++ "/" ++ key
              method := method
              cluster := cn
              accessKey := accessKey
              requestId := rid
              executionDate := now + fiveMinutes
              isReflectedOnBackends := true }

/-- `watchdog.CreateRecordFor`.  The request is presented through the
results of its helpers: `utils.ExtractBucketAndKey` as `bucket`/`key`,
`utils.ExtractAccessKey` as `accessKey`, and the two context lookups as
`clusterName`/`requestId`; `now` is `time.Now()` in nanoseconds. -/
def createRecordFor (reqMethod : String) (bucket : String) (key : String)
    (accessKey : String) (clusterName : Option String) (requestId : Option String)
    (now : Int) : Except String ConsistencyRecordGo :=
  match reqMethod with
  | "PUT" => createRecordForMethod Method.PUT bucket key accessKey clusterName requestId now
  | "DELETE" => createRecordForMethod Method.DELETE bucket key accessKey clusterName requestId now
  | _ => .error ("unsupported method - " ++ reqMethod)

/-- Modelled from the spec: the reconciler's log scan skips records
whose `executionDate` is in the future (§4.8: "skipping entries whose
`executionDate > now`"); the scan implementation is not in the source
tree.  A record is eligible at time `t` iff its execution date has
passed. -/
def eligibleForReconciliationAt (record : ConsistencyRecordGo) (t : Int) : Bool :=
  decide (record.executionDate ≤ t)

/-! ## WAL filter (internal/brim/filter/filter.go) -/

/-- The record fields the WAL filter consults. -/
structure WALRecordM where
  objectID : String
  method : Method
  objectVersion : Int
  deriving DecidableEq, Repr

/-- `storagesEndpoints`: the migration source, destinations and the
count of present-but-versionless storages computed by `checkVersions`. -/
structure StoragesEndpoints where
  src : String
  destinations : List String
  numberOfStoragesWithoutVersionHeader : Nat
  deriving DecidableEq, Repr

/-- The loop of `checkVersions`, carrying the accumulated source
endpoint, destination list and versionless-storage count.  Returns
`none` for the early `return nil, nil` taken when a storage holds a
version newer than the record's. -/
def checkVersionsLoop (method : Method) (objectVersion : Int) :
    List StorageStateM → String → List String → Nat → Option StoragesEndpoints
  | [], src, dsts, cnt =>
    some { src := src, destinations := dsts, numberOfStoragesWithoutVersionHeader := cnt }
  | storage :: rest, src, dsts, cnt =>
    if storage.version = -1 then
      checkVersionsLoop method objectVersion rest src
        (dsts ++ [storage.storageEndpoint])
        (if !storage.objectNotFound then cnt + 1 else cnt)
    else if objectVersion < storage.version then
      none
    else
      match method with
      | Method.PUT =>
        if storage.version < objectVersion then
          checkVersionsLoop method objectVersion rest src
            (dsts ++ [storage.storageEndpoint]) cnt
        else
          checkVersionsLoop method objectVersion rest storage.storageEndpoint dsts cnt
      | Method.DELETE =>
        if !storage.objectNotFound then
          checkVersionsLoop method objectVersion rest src
            (dsts ++ [storage.storageEndpoint]) cnt
        else
          checkVersionsLoop method objectVersion rest src dsts cnt

/-- `objectState`: replicas of one shard partitioned by presence.
Credentials are dropped from the model; S3 clients are identified by
their endpoint. -/
structure ObjectStateM where
  storagesWithObject : List StorageStateM
  storagesWithoutObject : List StorageStateM
  deriving DecidableEq, Repr

/-- `checkVersions(record, objectState)`: `none` models the
`return nil, nil` taken when a newer version exists on some storage
(the Go function never returns a non-nil error). -/
def checkVersions (record : WALRecordM) (state : ObjectStateM) :
    Option StoragesEndpoints :=
  checkVersionsLoop record.method record.objectVersion state.storagesWithObject "" [] 0

/-- `resolveVersions(record, objectState)`: `none` models every
`return nil, nil` (no storage holds the object for a PUT; a newer
version exists; or every present copy lacks a version header). -/
def resolveVersions (record : WALRecordM) (state : ObjectStateM) :
    Option StoragesEndpoints :=
  if record.method = Method.PUT ∧ state.storagesWithObject.length < 1 then
    none
  else
    match checkVersions record state with
    | none => none
    | some se =>
      if se.numberOfStoragesWithoutVersionHeader = state.storagesWithObject.length then
        none
      else if record.method = Method.PUT then
        some { se with
          destinations :=
            se.destinations ++ state.storagesWithoutObject.map (·.storageEndpoint) }
      else
        some se

/-- `prepareShardMigration(record, state)`: the source client and the
destination clients for the target shard.  Clients are modelled by
their endpoints; `none` for the destination list models a nil Go slice
(only the explicit `return nil, nil, nil` paths produce it — Go's
`make` in `createS3Clients` never yields a nil slice).  The Go error
result is omitted: every path of this fragment returns a nil error. -/
def prepareShardMigration (record : WALRecordM) (state : ObjectStateM) :
    Option String × Option (List String) :=
  match resolveVersions record state with
  | none => (none, none)
  | some se =>
    let srcStorages : List String := if se.src ≠ "" then [se.src] else []
    let dstClients : List String := se.destinations
    match record.method with
    | Method.PUT =>
      match srcStorages with
      | [] => (none, none)
      | s :: _ => (some s, some dstClients)
    | Method.DELETE => (none, some dstClients)

/-- Hooks are tracked by identity: the entry's original
`RecordProcessedHook` versus `noopHook`. -/
inductive HookRef where
  | original
  | noop
  deriving DecidableEq, Repr

/-- `model.WALEntry`: a record and its processed-hook. -/
structure WALEntryM where
  record : WALRecordM
  recordProcessedHook : HookRef
  deriving DecidableEq, Repr

/-- `model.WALTask`: entry (carrying the hook), source client and
destination clients, clients again modelled by endpoint. -/
structure WALTaskM where
  entry : WALEntryM
  sourceClient : Option String
  destinationClients : Option (List String)
  deriving DecidableEq, Repr

/-- `ringState`: old storages still holding the object outside the
target shard, and the target shard's source/destination clients. -/
structure RingStateM where
  oldStoragesWithObject : List String
  targetShardSrcCli : Option String
  targetShardDstClis : Option (List String)
  deriving DecidableEq, Repr

/-- `clearOldStoragesTask(record, hook, s3Clis)`: a DELETE-method copy
of the record, destinations the old storages, no source. -/
def clearOldStoragesTask (record : WALRecordM) (recordProcessedHook : HookRef)
    (s3Clis : List String) : WALTaskM :=
  { entry := { record := { record with method := Method.DELETE }
               recordProcessedHook := recordProcessedHook }
    sourceClient := none
    destinationClients := some s3Clis }

/-- The per-entry body of `DefaultWALFilter.Filter`: the two tasks sent
to the channel, in order.  If old storages still hold the object, the
entry's hook moves to the cleanup task and the migration task runs with
the no-op hook; otherwise the migration task keeps the entry's hook and
the cleanup task gets the no-op. -/
def filterEmit (walEntry : WALEntryM) (rs : RingStateM) : List WALTaskM :=
  let hook : HookRef :=
    if rs.oldStoragesWithObject.length > 0 then walEntry.recordProcessedHook
    else HookRef.noop
  let entryHook : HookRef :=
    if rs.oldStoragesWithObject.length > 0 then HookRef.noop
    else walEntry.recordProcessedHook
  [ { entry := { walEntry with recordProcessedHook := entryHook }
      sourceClient := rs.targetShardSrcCli
      destinationClients := rs.targetShardDstClis },
    clearOldStoragesTask walEntry.record hook rs.oldStoragesWithObject ]

/-! ## Consistency gate (C5) — record-or-skip decision

The `ConsistentShardsRing` implementation is not in the source tree
(only its test, `TestInsertingRecordsBasedOnTheRequest`, is). -/

/-- `config.ConsistencyLevel`. -/
inductive ConsistencyLevelM where
  | noneLevel
  | weak
  | strong
  deriving DecidableEq, Repr

/-- `"acl"` as a character list, for query-string matching. -/
def aclChars : List Char := ['a', 'c', 'l']

/-- `strings.Contains(q, "acl")`: some tail of `q` starts with `acl`. -/
def containsAcl : List Char → Bool
  | [] => false
  | c :: rest => (c :: rest).take 3 == aclChars || containsAcl rest

/-- Modelled from the spec: the consistency gate's record-or-skip
decision (§4.5 step 2), whose implementation (`ConsistentShardsRing`)
is not in the source tree.  Insert a record iff the consistency level
is not `none` and the request is a PUT on an object path, a PUT whose
query string contains `acl`, or a DELETE on an object path.  Path shape
is judged by `isBucketPath` as in the sharding code. -/
def shouldInsertRecord (method : String) (path : List Char) (rawQuery : List Char)
    (lvl : ConsistencyLevelM) : Bool :=
  if lvl == ConsistencyLevelM.noneLevel then false
  else
    (method == "PUT" && !isBucketPath path) ||
    (method == "PUT" && containsAcl rawQuery) ||
    (method == "DELETE" && !isBucketPath path)

/-- One row of `TestInsertingRecordsBasedOnTheRequest`. -/
structure GateTestRow where
  method : String
  path : List Char
  rawQuery : List Char
  lvl : ConsistencyLevelM
  shouldInsert : Bool

/-- The nine test cases of `TestInsertingRecordsBasedOnTheRequest`,
with each URL split into its path and raw query. -/
def gateTestTable : List GateTestRow :=
  [ { method := "PUT", path := "/newBucket".toList, rawQuery := [],
      lvl := ConsistencyLevelM.strong, shouldInsert := false },
    { method := "PUT", path := "/newBucket".toList, rawQuery := [],
      lvl := ConsistencyLevelM.weak, shouldInsert := false },
    { method := "PUT", path := "/newBucket".toList, rawQuery := [],
      lvl := ConsistencyLevelM.noneLevel, shouldInsert := false },
    { method := "PUT", path := "/newBucket/objectg".toList, rawQuery := [],
      lvl := ConsistencyLevelM.strong, shouldInsert := true },
    { method := "PUT", path := "/newBucket/objectg".toList, rawQuery := [],
      lvl := ConsistencyLevelM.weak, shouldInsert := true },
    { method := "PUT", path := "/newBucket/objectg".toList, rawQuery := [],
      lvl := ConsistencyLevelM.noneLevel, shouldInsert := false },
    { method := "GET", path := "/newBucket/objectg".toList, rawQuery := [],
      lvl := ConsistencyLevelM.strong, shouldInsert := false },
    { method := "GET", path := "/newBucket/objectg".toList, rawQuery := "acl".toList,
      lvl := ConsistencyLevelM.strong, shouldInsert := false },
    { method := "PUT", path := "/newBucket/objectg".toList, rawQuery := "acl".toList,
      lvl := ConsistencyLevelM.strong, shouldInsert := true } ]

/-! ## Technical configuration-validation endpoint (config/config.go) -/

/-- The state of a `net/http` `ResponseWriter`: the status actually
sent on the wire (fixed by the first `Write` or `WriteHeader`), and the
body written so far. -/
structure ResponseWriterState where
  status : Option Nat
  body : String
  deriving DecidableEq, Repr

/-- `ResponseWriter.Write`: if no header has been sent yet, an implicit
`WriteHeader(200)` precedes the data. -/
def rwWrite (w : ResponseWriterState) (s : String) : ResponseWriterState :=
  match w.status with
  | none => { status := some 200, body := w.body ++ s }
  | some _ => { w with body := w.body ++ s }

/-- `ResponseWriter.WriteHeader`: only the first call takes effect;
later calls are superfluous and ignored. -/
def rwWriteHeader (w : ResponseWriterState) (code : Nat) : ResponseWriterState :=
  match w.status with
  | none => { w with status := some code }
  | some _ => w

/-- The opaque parsed configuration; validation is an oracle. -/
structure YamlConfigM where
  cfgId : Nat
  deriving DecidableEq, Repr

/-- `ValidateConfigurationHTTPHandler`: the response-writer state after
the handler returns.  `bodyRead` is the outcome of
`ioutil.ReadAll(req.Body)`; `unmarshal` the `yaml.Unmarshal` oracle
(error message on failure); `validateConf` the `ValidateConf` oracle
(validity flag and formatted error map). -/
def validateConfigurationHTTPHandler (method : String)
    (bodyRead : Except String String)
    (unmarshal : String → Except String YamlConfigM)
    (validateConf : YamlConfigM → Bool × String) : ResponseWriterState :=
  let w : ResponseWriterState := { status := none, body := "" }
  if method ≠ "POST" then rwWriteHeader w 406
  else
    match bodyRead with
    | .error _ => rwWriteHeader w 500
    | .ok body =>
      match unmarshal body with
      | .error e => rwWriteHeader (rwWrite w ("YAML Unmarshal Error: " ++ e)) 400
      | .ok cfg =>
        let res := validateConf cfg
        if !res.1 then rwWriteHeader (rwWrite w res.2) 400
        else rwWriteHeader (rwWrite w "Configuration checked - OK.") 200

/-- The status code the client observes: `net/http` sends 200 if the
handler finished without writing anything. -/
def sentStatus (w : ResponseWriterState) : Nat :=
  w.status.getD 200

/-- The record produced by `createRecordFor "PUT" "b" "k" "ak" (some "c")
(some "r") 0`, used to exercise `createRecordFor` at a concrete input. -/
def sampleRecord : ConsistencyRecordGo :=
  { objectID := "b/k"
    method := Method.PUT
    cluster := "c"
    accessKey := "ak"
    requestId := "r"
    executionDate := 0 + fiveMinutes
    isReflectedOnBackends := true }

/-- The shard index visited after `j` regression steps, reading the
shard list as a cycle that moves to the predecessor at each step:
position `(i0 + (length - j)) % length` starting from `i0`. -/
def cycGet (shards : List String) (hn : 0 < shards.length) (i0 j : Nat) : String :=
  shards.get ⟨(i0 + (shards.length - j)) % shards.length, Nat.mod_lt _ hn⟩

/-! ## Theorems -/

/-- C1: a `ConsistencyRecord` is inserted iff the request is a PUT on an
object path, a PUT whose query string contains `acl`, or a DELETE on an
object path, all under consistency level `strong` or `weak`; GETs never
insert, and level `none` never inserts.  The last conjunct checks the
model against all nine rows of `TestInsertingRecordsBasedOnTheRequest`. -/
theorem consistency_gate_insert_iff :
    (∀ (method : String) (path rawQuery : List Char) (lvl : ConsistencyLevelM),
      shouldInsertRecord method path rawQuery lvl = true ↔
        ((lvl = ConsistencyLevelM.strong ∨ lvl = ConsistencyLevelM.weak) ∧
          ((method = "PUT" ∧ isBucketPath path = false) ∨
           (method = "PUT" ∧ containsAcl rawQuery = true) ∨
           (method = "DELETE" ∧ isBucketPath path = false)))) ∧
    (∀ (method : String) (path rawQuery : List Char),
      shouldInsertRecord method path rawQuery ConsistencyLevelM.noneLevel = false) ∧
    (∀ (path rawQuery : List Char) (lvl : ConsistencyLevelM),
      shouldInsertRecord "GET" path rawQuery lvl = false) ∧
    gateTestTable.all
      (fun r => shouldInsertRecord r.method r.path r.rawQuery r.lvl == r.shouldInsert) = true := by
  refine ⟨?_, ?_, ?_, by decide⟩
  · intro method path rawQuery lvl
    cases lvl <;>
      simp [shouldInsertRecord, Bool.or_eq_true, Bool.and_eq_true, Bool.not_eq_true'] <;>
      tauto
  · intro method path rawQuery
    simp [shouldInsertRecord]
  · intro path rawQuery lvl
    cases lvl <;> simp [shouldInsertRecord]

/-- C2 counterexample: a response with status code exactly 400 does not
trigger a regression call (the code requires `StatusCode > 400`), while
401 does. -/
theorem regression_400_counterexample :
    shouldCallRegression ⟨"GET", ['/'], [], []⟩ (some ⟨400⟩) none = false ∧
    shouldCallRegression ⟨"GET", ['/'], [], []⟩ (some ⟨401⟩) none = true := by
  decide

/-- C2 (amended): assuming the Go round-trip contract (no error implies
a response), a regression call is triggered exactly when the response
status code lies strictly between 400 and 500 (401–499), or when the
round trip returned an error and the request does not carry
`X-Akubra-No-Regression-On-Failure`. -/
theorem should_call_regression_amended :
    ∀ (req : HttpRequest) (response : Option HttpResponse) (err : Option String),
      (err = none → response ≠ none) →
      (shouldCallRegression req response err = true ↔
        ((∃ resp, response = some resp ∧ err = none ∧
            400 < resp.statusCode ∧ resp.statusCode < 500) ∨
         (err ≠ none ∧ req.headerNames.contains noTimeoutRegressionHeader = false))) := by
  intro req response err hcontract
  cases err with
  | none =>
    cases response with
    | none => exact absurd rfl (hcontract rfl)
    | some resp =>
      simp [shouldCallRegression]
  | some e =>
    cases response <;>
      simp [shouldCallRegression, Bool.not_eq_true']

/-- Witness for C2's amended theorem at a 404 response. -/
theorem should_call_regression_amended_witness :
    shouldCallRegression ⟨"GET", ['/'], [], []⟩ (some ⟨404⟩) none = true :=
  (should_call_regression_amended ⟨"GET", ['/'], [], []⟩ (some ⟨404⟩) none
      (fun _ => by simp)).mpr
    (Or.inl ⟨⟨404⟩, rfl, rfl, by decide, by decide⟩)

/-- `checkVersionsLoop` takes the early `return nil, nil` as soon as the
remaining storages contain one whose version is neither `-1` nor at
most the record's version. -/
theorem checkVersionsLoop_none_of_newer (method : Method) (objVer : Int) :
    ∀ (l : List StorageStateM) (src : String) (dsts : List String) (cnt : Nat),
      (∃ s ∈ l, s.version ≠ -1 ∧ objVer < s.version) →
      checkVersionsLoop method objVer l src dsts cnt = none := by
  intro l
  induction l with
  | nil =>
    rintro src dsts cnt ⟨s, hs, _⟩
    exact absurd hs (List.not_mem_nil s)
  | cons head rest ih =>
    rintro src dsts cnt ⟨s, hs, hv1, hv2⟩
    rcases List.mem_cons.mp hs with heq | hmem
    · subst heq
      simp only [checkVersionsLoop]
      rw [if_neg hv1, if_pos hv2]
    · by_cases h1 : head.version = -1
      · simp only [checkVersionsLoop]
        rw [if_pos h1]
        exact ih _ _ _ ⟨s, hmem, hv1, hv2⟩
      · by_cases h2 : objVer < head.version
        · simp only [checkVersionsLoop]
          rw [if_neg h1, if_pos h2]
        · simp only [checkVersionsLoop]
          rw [if_neg h1, if_neg h2]
          cases method with
          | PUT =>
            by_cases h3 : head.version < objVer
            · rw [if_pos h3]
              exact ih _ _ _ ⟨s, hmem, hv1, hv2⟩
            · rw [if_neg h3]
              exact ih _ _ _ ⟨s, hmem, hv1, hv2⟩
          | DELETE =>
            by_cases h3 : !head.objectNotFound
            · rw [if_pos h3]
              exact ih _ _ _ ⟨s, hmem, hv1, hv2⟩
            · rw [if_neg h3]
              exact ih _ _ _ ⟨s, hmem, hv1, hv2⟩

/-- C3: when some replica of the target shard that holds the object
reports a version strictly greater than the record's (record versions
are nonnegative, so the `-1` no-header sentinel cannot witness this),
the filter plans no migration: no source client and no destination
clients for the target shard. -/
theorem wal_filter_drops_superseded :
    ∀ (record : WALRecordM) (state : ObjectStateM),
      0 ≤ record.objectVersion →
      (∃ s ∈ state.storagesWithObject, record.objectVersion < s.version) →
      prepareShardMigration record state = (none, none) := by
  rintro record state h0 ⟨s, hs, hv⟩
  have hne : s.version ≠ -1 := by omega
  have hcv : checkVersions record state = none :=
    checkVersionsLoop_none_of_newer record.method record.objectVersion
      state.storagesWithObject "" [] 0 ⟨s, hs, hne, hv⟩
  have hrv : resolveVersions record state = none := by
    unfold resolveVersions
    rw [hcv]
    split <;> rfl
  unfold prepareShardMigration
  rw [hrv]

/-- Witness for C3 at a one-replica state holding version 5 against a
record at version 3. -/
theorem wal_filter_drops_superseded_witness :
    prepareShardMigration ⟨"b/o", Method.PUT, 3⟩ ⟨[⟨"e1", 5, false⟩], []⟩ = (none, none) :=
  wal_filter_drops_superseded ⟨"b/o", Method.PUT, 3⟩ ⟨[⟨"e1", 5, false⟩], []⟩
    (by decide) ⟨⟨"e1", 5, false⟩, by decide, by decide⟩

/-- C4 counterexample: a HEAD answered 200 with the configured version
header absent is *not* the claimed error-free legacy state; `Fetch`
fails (`strconv.ParseInt("")` errors and the error is returned). -/
theorem version_fetch_legacy_counterexample :
    headerGet [] "x-version" = "" ∧
    (s3VersionFetcherFetch "x-version" "ep" (.okRes ⟨200, "OK", []⟩)).toOption = none := by
  exact ⟨rfl, rfl⟩

/-- C4 (amended): 404 yields `{absent, version = -1}` without error;
any other HEAD error propagates; a non-200 status fails; a 200 whose
configured version header parses as an int64 yields that version with
`absent = false`; a 200 whose header is absent or unparsable fails
(there is no error-free legacy fallback). -/
theorem version_fetch_amended :
    ∀ (hn ep : String) (outcome : HeadOutcome),
      (outcome = .errRes "404 Not Found" →
        s3VersionFetcherFetch hn ep outcome =
          .ok { storageEndpoint := ep, version := -1, objectNotFound := true }) ∧
      (∀ msg, outcome = .errRes msg → msg ≠ "404 Not Found" →
        s3VersionFetcherFetch hn ep outcome = .error msg) ∧
      (∀ resp, outcome = .okRes resp → resp.statusCode ≠ 200 →
        ∃ e, s3VersionFetcherFetch hn ep outcome = .error e) ∧
      (∀ resp v, outcome = .okRes resp → resp.statusCode = 200 →
        parseInt64 (headerGet resp.headers hn).toList = some v →
        s3VersionFetcherFetch hn ep outcome =
          .ok { storageEndpoint := ep, version := v, objectNotFound := false }) ∧
      (∀ resp, outcome = .okRes resp → resp.statusCode = 200 →
        parseInt64 (headerGet resp.headers hn).toList = none →
        ∃ e, s3VersionFetcherFetch hn ep outcome = .error e) := by
  intro hn ep outcome
  refine ⟨?_, ?_, ?_, ?_, ?_⟩
  · rintro rfl
    simp [s3VersionFetcherFetch]
  · rintro msg rfl hne
    simp [s3VersionFetcherFetch, hne]
  · rintro resp rfl hne
    exact ⟨"bad response, status code = " ++ toString resp.statusCode ++
        ", message = " ++ resp.status, by simp [s3VersionFetcherFetch, hne]⟩
  · rintro resp v rfl h200 hparse
    have hparse2 : parseInt64 (headerGet resp.headers hn).data = some v := hparse
    simp [s3VersionFetcherFetch, h200, hparse2]
  · rintro resp rfl h200 hparse
    have hparse2 : parseInt64 (headerGet resp.headers hn).data = none := hparse
    exact ⟨"strconv.ParseInt: invalid syntax", by simp [s3VersionFetcherFetch, h200, hparse2]⟩

/-- Witness for C4's amended theorem at a 404 outcome and at a parsed
header. -/
theorem version_fetch_amended_witness :
    s3VersionFetcherFetch "x-version" "ep" (.errRes "404 Not Found") =
      .ok { storageEndpoint := "ep", version := -1, objectNotFound := true } ∧
    s3VersionFetcherFetch "x-version" "ep" (.okRes ⟨200, "OK", [("x-version", "7")]⟩) =
      .ok { storageEndpoint := "ep", version := 7, objectNotFound := false } :=
  ⟨(version_fetch_amended "x-version" "ep" (.errRes "404 Not Found")).1 rfl,
   (version_fetch_amended "x-version" "ep"
      (.okRes ⟨200, "OK", [("x-version", "7")]⟩)).2.2.2.1 ⟨200, "OK", [("x-version", "7")]⟩ 7
      rfl rfl (by decide)⟩

/-- C5: when old storages still hold the object (so a real cleanup task
is emitted alongside the migration task), the hooks of the two tasks
sent to the channel, in emission order, are exactly `[noop, original]`:
the original `RecordProcessedHook` rides the last-emitted (cleanup)
task, the earlier (migration) task gets the no-op, and exactly one task
carries the original hook. -/
theorem wal_filter_hook_on_last_task :
    ∀ (walEntry : WALEntryM) (rs : RingStateM),
      walEntry.recordProcessedHook = HookRef.original →
      rs.oldStoragesWithObject ≠ [] →
      (rs.targetShardSrcCli ≠ none ∨ rs.targetShardDstClis ≠ none) →
      (filterEmit walEntry rs).map (fun t => t.entry.recordProcessedHook) =
        [HookRef.noop, HookRef.original] := by
  intro e rs h1 h2 _
  have hlen : 0 < rs.oldStoragesWithObject.length := List.length_pos.mpr h2
  simp [filterEmit, clearOldStoragesTask, hlen, h1]

/-- Witness for C5 with one old storage and a nonempty migration. -/
theorem wal_filter_hook_on_last_task_witness :
    (filterEmit ⟨⟨"b/o", Method.PUT, 1⟩, HookRef.original⟩
        ⟨["e9"], some "e1", some ["e2"]⟩).map (fun t => t.entry.recordProcessedHook) =
      [HookRef.noop, HookRef.original] :=
  wal_filter_hook_on_last_task ⟨⟨"b/o", Method.PUT, 1⟩, HookRef.original⟩
    ⟨["e9"], some "e1", some ["e2"]⟩ rfl (by decide) (Or.inl (by decide))

/-- C8: the technical endpoint answers 406 to non-POST and 200 to a
valid POST as claimed, but the two failure paths intended to answer 400
actually answer 200: the handler writes the error text to the
`ResponseWriter` before calling `WriteHeader(400)`, and the first write
already sent status 200, making the later `WriteHeader` superfluous. -/
theorem technical_endpoint_status_behavior :
    sentStatus (validateConfigurationHTTPHandler "GET" (.ok "")
      (fun _ => .ok ⟨0⟩) (fun _ => (true, ""))) = 406 ∧
    sentStatus (validateConfigurationHTTPHandler "POST" (.ok "cfg")
      (fun _ => .ok ⟨0⟩) (fun _ => (true, ""))) = 200 ∧
    sentStatus (validateConfigurationHTTPHandler "POST" (.ok ":")
      (fun _ => .error "did not find expected key") (fun _ => (true, ""))) = 200 ∧
    sentStatus (validateConfigurationHTTPHandler "POST" (.ok "cfg")
      (fun _ => .ok ⟨0⟩) (fun _ => (false, "validation errors"))) = 200 :=
  ⟨rfl, rfl, rfl, rfl⟩

/-- C9: a record successfully built by `CreateRecordFor` has its
execution date exactly five minutes after creation time, so the
reconciler's scan (which skips records whose execution date is in the
future) never selects it earlier than five minutes after the write. -/
theorem create_record_execution_date :
    ∀ (reqMethod bucket key accessKey : String) (clusterName requestId : Option String)
      (now : Int) (rec : ConsistencyRecordGo),
      createRecordFor reqMethod bucket key accessKey clusterName requestId now = .ok rec →
      rec.executionDate = now + fiveMinutes ∧
      ∀ t : Int, t < now + fiveMinutes → eligibleForReconciliationAt rec t = false := by
  intro m b k ak cn rid now rec h
  have hexec : rec.executionDate = now + fiveMinutes := by
    unfold createRecordFor at h
    have key : ∀ method,
        createRecordForMethod method b k ak cn rid now = .ok rec →
        rec.executionDate = now + fiveMinutes := by
      intro method hm
      unfold createRecordForMethod at hm
      split at hm
      · exact absurd hm (by simp)
      · split at hm
        · exact absurd hm (by simp)
        · split at hm
          · exact absurd hm (by simp)
          · split at hm
            · exact absurd hm (by simp)
            · rw [Except.ok.injEq] at hm
              subst hm
              rfl
    split at h
    · exact key Method.PUT h
    · exact key Method.DELETE h
    · exact absurd h (by simp)
  refine ⟨hexec, ?_⟩
  intro t ht
  simp only [eligibleForReconciliationAt, decide_eq_false_iff_not, not_le, hexec]
  exact ht

/-- Witness for C9 at a concrete PUT built at time 0. -/
theorem create_record_execution_date_witness :
    sampleRecord.executionDate = 0 + fiveMinutes ∧
    eligibleForReconciliationAt sampleRecord 100 = false :=
  ⟨(create_record_execution_date "PUT" "b" "k" "ak" (some "c") (some "r") 0
      sampleRecord rfl).1,
   (create_record_execution_date "PUT" "b" "k" "ak" (some "c") (some "r") 0
      sampleRecord rfl).2 100 (by decide)⟩

/-- A path made only of slash characters trims to the empty list. -/
theorem trimSlashes_all_slash (path : List Char) (h : ∀ c ∈ path, c = '/') :
    trimSlashes path = [] := by
  have hd : path.dropWhile (fun c => decide (c = '/')) = [] :=
    List.dropWhile_eq_nil_iff.mpr (by intro x hx; simp [h x hx])
  unfold trimSlashes
  rw [hd]
  rfl

/-- C10: a URL path consisting only of slashes is a bucket path, so
`DoRequest` hands the request to the all-clusters round-tripper rather
than picking a shard by consistent hashing. -/
theorem slash_only_path_is_bucket_path :
    ∀ (path : List Char), (∀ c ∈ path, c = '/') →
      isBucketPath path = true ∧
      ∀ (sr : ShardsRingM) (req : HttpRequest) (trig : String → Bool),
        req.path = path → doRequestContacted sr req trig = some sr.shardNames := by
  intro path h
  have hb : isBucketPath path = true := by
    unfold isBucketPath
    rw [trimSlashes_all_slash path h]
    rfl
  refine ⟨hb, ?_⟩
  intro sr req trig hp
  unfold doRequestContacted
  rw [if_pos]
  rw [hp, hb, Bool.or_true]

/-- Witness for C10 at the root path `/`. -/
theorem slash_only_path_is_bucket_path_witness :
    isBucketPath ['/'] = true ∧
    doRequestContacted ⟨["s1"], fun _ => some "s1", []⟩ ⟨"GET", ['/'], [], []⟩
      (fun _ => false) = some ["s1"] :=
  ⟨(slash_only_path_is_bucket_path ['/'] (by decide)).1,
   (slash_only_path_is_bucket_path ['/'] (by decide)).2
     ⟨["s1"], fun _ => some "s1", []⟩ ⟨"GET", ['/'], [], []⟩ (fun _ => false) rfl⟩

/-- A regression walk whose starting shard does not trigger regression
contacts that shard alone. -/
theorem regressionWalk_no_trigger (regMap : List (String × String)) (trig : String → Bool)
    (orig cl : String) (fuel : Nat) (h : trig cl = false) :
    regressionWalk regMap trig orig cl fuel = [cl] := by
  cases fuel <;> simp [regressionWalk, h]

/-- C6 counterexample: a GET on an object path whose picked shard
answers 404 is also dispatched to the regression shard, so a non-DELETE
object-path request is not dispatched *only* to the shard picked by
consistent hashing. -/
theorem bucket_delete_fanout_counterexample :
    createRegressionMap ["s1", "s2"] = some [("s1", "s2"), ("s2", "s1")] ∧
    ("GET" : String) ≠ "DELETE" ∧
    isBucketPath "/bucket/object".toList = false ∧
    doRequestContacted ⟨["s1", "s2"], fun _ => some "s1", [("s1", "s2"), ("s2", "s1")]⟩
        ⟨"GET", "/bucket/object".toList, [], []⟩
        (fun cl => shouldCallRegression ⟨"GET", "/bucket/object".toList, [], []⟩
          (some (if cl = "s1" then ⟨404⟩ else ⟨200⟩)) none) =
      some ["s1", "s2"] := by
  refine ⟨rfl, by decide, by decide, ?_⟩
  rfl

/-- C6 (amended): a DELETE or a bucket-path request is handed to the
all-clusters round-tripper, which round-trips every configured shard
once; any other request starts at the shard picked by consistent
hashing and reaches further shards only through the regression chain —
in particular, when the picked shard's outcome does not trigger
regression it alone is contacted. -/
theorem bucket_delete_fanout_amended :
    ∀ (sr : ShardsRingM) (req : HttpRequest) (trig : String → Bool) (cl : String),
      ((req.method = "DELETE" ∨ isBucketPath req.path = true) →
        doRequestContacted sr req trig = some sr.shardNames) ∧
      (req.method ≠ "DELETE" → isBucketPath req.path = false →
        sr.pickFn req.path = some cl → trig cl = false →
        doRequestContacted sr req trig = some [cl]) := by
  intro sr req trig cl
  constructor
  · intro h
    unfold doRequestContacted
    have hcond : (req.method == "DELETE" || isBucketPath req.path) = true := by
      rcases h with h | h
      · simp [h]
      · simp [h]
    rw [if_pos hcond]
  · intro h1 h2 h3 h4
    unfold doRequestContacted
    have hcond : ¬((req.method == "DELETE" || isBucketPath req.path) = true) := by
      simp [h1, h2]
    rw [if_neg hcond, h3]
    show some (regressionWalk sr.regressionMap trig cl cl sr.shardNames.length) = some [cl]
    rw [regressionWalk_no_trigger _ _ _ _ _ h4]

/-- Witness for C6's amended theorem: a DELETE fans out, a quiet GET
stays on the picked shard. -/
theorem bucket_delete_fanout_amended_witness :
    doRequestContacted ⟨["s1", "s2"], fun _ => some "s1", [("s1", "s2"), ("s2", "s1")]⟩
        ⟨"DELETE", "/b/o".toList, [], []⟩ (fun _ => true) = some ["s1", "s2"] ∧
    doRequestContacted ⟨["s1", "s2"], fun _ => some "s1", [("s1", "s2"), ("s2", "s1")]⟩
        ⟨"GET", "/b/o".toList, [], []⟩ (fun _ => false) = some ["s1"] :=
  ⟨(bucket_delete_fanout_amended ⟨["s1", "s2"], fun _ => some "s1",
        [("s1", "s2"), ("s2", "s1")]⟩ ⟨"DELETE", "/b/o".toList, [], []⟩
        (fun _ => true) "s1").1 (Or.inl rfl),
   (bucket_delete_fanout_amended ⟨["s1", "s2"], fun _ => some "s1",
        [("s1", "s2"), ("s2", "s1")]⟩ ⟨"GET", "/b/o".toList, [], []⟩
        (fun _ => false) "s1").2 (by decide) (by decide) rfl rfl⟩

/-- `cycGet` at step 0 is the starting shard. -/
theorem cycGet_zero (shards : List String) (hn : 0 < shards.length) (i0 : Nat)
    (h0 : i0 < shards.length) : cycGet shards hn i0 0 = shards.get ⟨i0, h0⟩ := by
  unfold cycGet
  apply congrArg
  apply Fin.ext
  show (i0 + (shards.length - 0)) % shards.length = i0
  rw [Nat.sub_zero, Nat.add_mod_right]
  exact Nat.mod_eq_of_lt h0

/-- `cycGet` wraps exactly at step `length`: the walk would be back at
the start. -/
theorem cycGet_length (shards : List String) (hn : 0 < shards.length) (i0 : Nat) :
    cycGet shards hn i0 shards.length = cycGet shards hn i0 0 := by
  unfold cycGet
  apply congrArg
  apply Fin.ext
  show (i0 + (shards.length - shards.length)) % shards.length =
    (i0 + (shards.length - 0)) % shards.length
  rw [Nat.sub_self, Nat.add_zero, Nat.sub_zero, Nat.add_mod_right]

/-- On a duplicate-free shard list, distinct step counts below the
length reach distinct shards. -/
theorem cycGet_inj (shards : List String) (hn : 0 < shards.length)
    (hnd : shards.Nodup) (i0 : Nat) :
    ∀ j1 j2, j1 < shards.length → j2 < shards.length →
      cycGet shards hn i0 j1 = cycGet shards hn i0 j2 → j1 = j2 := by
  intro j1 j2 hj1 hj2 heq
  unfold cycGet at heq
  have hfin : (i0 + (shards.length - j1)) % shards.length =
      (i0 + (shards.length - j2)) % shards.length :=
    congrArg Fin.val ((List.nodup_iff_injective_get.mp hnd) heq)
  have e2 : (shards.length - j1) % shards.length =
      (shards.length - j2) % shards.length :=
    Nat.ModEq.add_left_cancel' i0 hfin
  have h1 : (shards.length - j1) % shards.length =
      if j1 = 0 then 0 else shards.length - j1 := by
    split
    case isTrue h => rw [h, Nat.sub_zero, Nat.mod_self]
    case isFalse h => exact Nat.mod_eq_of_lt (by omega)
  have h2 : (shards.length - j2) % shards.length =
      if j2 = 0 then 0 else shards.length - j2 := by
    split
    case isTrue h => rw [h, Nat.sub_zero, Nat.mod_self]
    case isFalse h => exact Nat.mod_eq_of_lt (by omega)
  rw [h1, h2] at e2
  split_ifs at e2 <;> omega

/-- Any nonzero step count below the length lands away from the start. -/
theorem cycGet_ne_zero (shards : List String) (hn : 0 < shards.length)
    (hnd : shards.Nodup) (i0 j : Nat) (hj0 : j ≠ 0) (hjn : j < shards.length) :
    cycGet shards hn i0 j ≠ cycGet shards hn i0 0 := fun hc =>
  hj0 (cycGet_inj shards hn hnd i0 j 0 hjn hn hc)

/-- The regression-map loop pairs each shard with the running
`previousCluster`, i.e. zips the shard list against itself shifted by
the initial (last) shard. -/
theorem regressionMapLoop_eq_zip :
    ∀ (l : List String) (prev : String),
      regressionMapLoop prev l = l.zip (prev :: l) := by
  intro l
  induction l with
  | nil => intro prev; rfl
  | cons c rest ih =>
    intro prev
    show (c, prev) :: regressionMapLoop c rest = (c, prev) :: rest.zip (c :: rest)
    rw [ih c]

/-- Looking a duplicate-free key list's `i`-th element up in its zip
with any long-enough value list returns the `i`-th value. -/
theorem lookup_zip_nodup :
    ∀ (l m : List String) (i : Nat) (hl : i < l.length) (hm : i < m.length),
      l.Nodup → (l.zip m).lookup (l.get ⟨i, hl⟩) = some (m.get ⟨i, hm⟩) := by
  intro l
  induction l with
  | nil =>
    intro m i hl _ _
    exact absurd hl (by simp)
  | cons a l ih =>
    intro m i hl hm hnd
    cases m with
    | nil => exact absurd hm (by simp)
    | cons b m =>
      cases i with
      | zero =>
        show List.lookup a ((a, b) :: l.zip m) = some b
        simp [List.lookup]
      | succ i =>
        have hl2 : i < l.length := by
          simp only [List.length_cons] at hl
          omega
        have hm2 : i < m.length := by
          simp only [List.length_cons] at hm
          omega
        have hkey : l.get ⟨i, hl2⟩ ∈ l := List.get_mem l i hl2
        have hna : a ∉ l := (List.nodup_cons.mp hnd).1
        have hne : l.get ⟨i, hl2⟩ ≠ a := fun hc => hna (hc ▸ hkey)
        show List.lookup (l.get ⟨i, hl2⟩) ((a, b) :: l.zip m) = some (m.get ⟨i, hm2⟩)
        simp only [List.lookup]
        rw [beq_eq_false_iff_ne.mpr hne]
        exact ih m i hl2 hm2 (List.nodup_cons.mp hnd).2

/-- Reading the `i`-th element of `getLast :: shards` is reading the
cyclic predecessor position `(i + length - 1) % length` of `shards`. -/
theorem lastCons_get (shards : List String) (hne : shards ≠ []) (i : Nat)
    (hi : i < shards.length) (hic : i < (shards.getLast hne :: shards).length)
    (hmod : (i + shards.length - 1) % shards.length < shards.length) :
    (shards.getLast hne :: shards).get ⟨i, hic⟩ =
      shards.get ⟨(i + shards.length - 1) % shards.length, hmod⟩ := by
  have hn : 0 < shards.length := List.length_pos.mpr hne
  cases i with
  | zero =>
    have hidx : (0 + shards.length - 1) % shards.length = shards.length - 1 := by
      rw [Nat.zero_add]
      exact Nat.mod_eq_of_lt (by omega)
    have hlast : shards.getLast hne = shards.get ⟨shards.length - 1, by omega⟩ := by
      rw [List.getLast_eq_getElem]
      rfl
    show shards.getLast hne = _
    rw [hlast]
    exact congrArg shards.get (Fin.ext hidx.symm)
  | succ i =>
    have hidx : (i + 1 + shards.length - 1) % shards.length = i := by
      rw [show i + 1 + shards.length - 1 = i + shards.length from by omega,
        Nat.add_mod_right]
      exact Nat.mod_eq_of_lt (by omega)
    show shards.get ⟨i, by omega⟩ = _
    exact congrArg shards.get (Fin.ext hidx.symm)

/-- One regression-map lookup moves the cyclic walk one step: the map
built by `createRegressionMap` sends the shard at step `j` to the shard
at step `j + 1`. -/
theorem cycGet_lookup (shards : List String) (hn : 0 < shards.length)
    (hnd : shards.Nodup) (hne : shards ≠ []) (i0 j : Nat) (hj : j < shards.length) :
    (regressionMapLoop (shards.getLast hne) shards).lookup (cycGet shards hn i0 j) =
      some (cycGet shards hn i0 (j + 1)) := by
  rw [regressionMapLoop_eq_zip]
  have hpc : (i0 + (shards.length - j)) % shards.length <
      (shards.getLast hne :: shards).length := by
    simp only [List.length_cons]
    have := Nat.mod_lt (i0 + (shards.length - j)) hn
    omega
  have harith : ((i0 + (shards.length - j)) % shards.length + shards.length - 1) %
      shards.length = (i0 + (shards.length - (j + 1))) % shards.length := by
    rw [show (i0 + (shards.length - j)) % shards.length + shards.length - 1
        = (i0 + (shards.length - j)) % shards.length + (shards.length - 1) from by omega]
    rw [Nat.mod_add_mod]
    rw [show i0 + (shards.length - j) + (shards.length - 1)
        = i0 + (shards.length - (j + 1)) + shards.length from by omega]
    rw [Nat.add_mod_right]
  refine Eq.trans (lookup_zip_nodup shards (shards.getLast hne :: shards)
    ((i0 + (shards.length - j)) % shards.length) (Nat.mod_lt _ hn) hpc hnd) ?_
  refine Eq.trans (congrArg some (lastCons_get shards hne
    ((i0 + (shards.length - j)) % shards.length) (Nat.mod_lt _ hn) hpc
    (Nat.mod_lt _ hn))) ?_
  exact congrArg some (congrArg shards.get (Fin.ext harith))

/-- The regression walk started anywhere on the cycle with enough fuel
visits the consecutive cyclic positions `j, j+1, …, k` for some `k`
below the shard count. -/
theorem regressionWalk_cyc (shards : List String) (hn : 0 < shards.length)
    (hnd : shards.Nodup) (hne : shards ≠ []) (trig : String → Bool) (i0 : Nat)
    (h0 : i0 < shards.length) :
    ∀ (fuel j : Nat), j < shards.length → shards.length ≤ fuel + j + 1 →
      ∃ k, j ≤ k ∧ k < shards.length ∧
        regressionWalk (regressionMapLoop (shards.getLast hne) shards) trig
          (cycGet shards hn i0 0) (cycGet shards hn i0 j) fuel =
        (List.range' j (k + 1 - j)).map (cycGet shards hn i0) := by
  intro fuel
  induction fuel with
  | zero =>
    intro j hj _
    refine ⟨j, Nat.le_refl j, hj, ?_⟩
    rw [show j + 1 - j = 1 from by omega]
    rfl
  | succ fuel ih =>
    intro j hj hfuel
    by_cases htrig : trig (cycGet shards hn i0 j) = true
    · have hlook := cycGet_lookup shards hn hnd hne i0 j hj
      by_cases hj1 : j + 1 < shards.length
      · have hne2 : cycGet shards hn i0 (j + 1) ≠ cycGet shards hn i0 0 :=
          cycGet_ne_zero shards hn hnd i0 (j + 1) (by omega) hj1
        obtain ⟨k, hk1, hk2, hwalk⟩ := ih (j + 1) hj1 (by omega)
        refine ⟨k, by omega, hk2, ?_⟩
        rw [show k + 1 - (j + 1) = k - j from by omega] at hwalk
        simp only [regressionWalk]
        rw [if_pos htrig, hlook]
        dsimp only
        rw [if_pos hne2, hwalk,
          show k + 1 - j = (k - j) + 1 from by omega,
          List.range'_succ, List.map_cons]
      · have hj1e : j + 1 = shards.length := by omega
        have heq : cycGet shards hn i0 (j + 1) = cycGet shards hn i0 0 := by
          rw [hj1e]
          exact cycGet_length shards hn i0
        refine ⟨j, Nat.le_refl j, hj, ?_⟩
        simp only [regressionWalk]
        rw [if_pos htrig, hlook]
        dsimp only
        rw [if_neg (fun hcon => hcon heq),
          show j + 1 - j = 1 from by omega]
        rfl
    · refine ⟨j, Nat.le_refl j, hj, ?_⟩
      simp only [regressionWalk]
      rw [if_neg htrig, show j + 1 - j = 1 from by omega]
      rfl

/-- Single-step unfolding of `regressionWalk` at zero fuel. -/
theorem regressionWalk_zero_eq (regMap : List (String × String)) (trig : String → Bool)
    (orig cl : String) : regressionWalk regMap trig orig cl 0 = [cl] := rfl

/-- Single-step unfolding of `regressionWalk` at successor fuel. -/
theorem regressionWalk_succ_eq (regMap : List (String × String)) (trig : String → Bool)
    (orig cl : String) (fuel : Nat) :
    regressionWalk regMap trig orig cl (fuel + 1) =
      cl ::
        (if trig cl then
          match regMap.lookup cl with
          | some rcl =>
            if rcl ≠ orig then regressionWalk regMap trig orig rcl fuel else []
          | none => []
        else []) := rfl

/-- With fuel at least the remaining cycle length, one more unit of
fuel does not change the regression walk: the recursion stops on its
own before running out. -/
theorem regressionWalk_fuel_succ (shards : List String) (hn : 0 < shards.length)
    (hnd : shards.Nodup) (hne : shards ≠ []) (trig : String → Bool) (i0 : Nat)
    (h0 : i0 < shards.length) :
    ∀ (fuel j : Nat), j < shards.length → shards.length ≤ fuel + j + 1 →
      regressionWalk (regressionMapLoop (shards.getLast hne) shards) trig
        (cycGet shards hn i0 0) (cycGet shards hn i0 j) (fuel + 1) =
      regressionWalk (regressionMapLoop (shards.getLast hne) shards) trig
        (cycGet shards hn i0 0) (cycGet shards hn i0 j) fuel := by
  intro fuel
  induction fuel with
  | zero =>
    intro j hj hfuel
    have hj1e : j + 1 = shards.length := by omega
    rw [regressionWalk_succ_eq, regressionWalk_zero_eq]
    by_cases htrig : trig (cycGet shards hn i0 j) = true
    · have hlook := cycGet_lookup shards hn hnd hne i0 j hj
      have heq : cycGet shards hn i0 (j + 1) = cycGet shards hn i0 0 := by
        rw [hj1e]
        exact cycGet_length shards hn i0
      rw [if_pos htrig, hlook]
      dsimp only
      rw [if_neg (fun hcon => hcon heq)]
    · rw [if_neg htrig]
  | succ fuel ih =>
    intro j hj hfuel
    rw [regressionWalk_succ_eq, regressionWalk_succ_eq]
    by_cases htrig : trig (cycGet shards hn i0 j) = true
    · have hlook := cycGet_lookup shards hn hnd hne i0 j hj
      rw [if_pos htrig, if_pos htrig, hlook]
      dsimp only
      by_cases hj1 : j + 1 < shards.length
      · have hne2 : cycGet shards hn i0 (j + 1) ≠ cycGet shards hn i0 0 :=
          cycGet_ne_zero shards hn hnd i0 (j + 1) (by omega) hj1
        rw [if_pos hne2, if_pos hne2, ih (j + 1) hj1 (by omega)]
      · have hj1e2 : j + 1 = shards.length := by omega
        have heq : cycGet shards hn i0 (j + 1) = cycGet shards hn i0 0 := by
          rw [hj1e2]
          exact cycGet_length shards hn i0
        rw [if_neg (fun hcon => hcon heq), if_neg (fun hcon => hcon heq)]
    · rw [if_neg htrig, if_neg htrig]

/-- C7: on a ring whose regression map is the cycle built by
`createRegressionMap` over distinct shard names, the recursive
regression walk started at a shard terminates (extra fuel beyond the
shard count changes nothing), visits each shard at most once, and never
revisits the origin shard after leaving it. -/
theorem regression_walk_terminates :
    ∀ (shards : List String) (M : List (String × String)) (trig : String → Bool)
      (s : String),
      shards.Nodup → s ∈ shards → createRegressionMap shards = some M →
      (regressionWalk M trig s s shards.length).Nodup ∧
      (regressionWalk M trig s s shards.length).head? = some s ∧
      s ∉ (regressionWalk M trig s s shards.length).tail ∧
      (∀ extra, regressionWalk M trig s s (shards.length + extra) =
        regressionWalk M trig s s shards.length) := by
  intro shards M trig s hnd hs hM
  have hne : shards ≠ [] := List.ne_nil_of_mem hs
  have hn : 0 < shards.length := List.length_pos.mpr hne
  have hMeq : M = regressionMapLoop (shards.getLast hne) shards := by
    unfold createRegressionMap at hM
    rw [List.getLast?_eq_getLast shards hne] at hM
    exact (Option.some.inj hM).symm
  subst hMeq
  obtain ⟨⟨i0, h0⟩, hget⟩ := List.mem_iff_get.mp hs
  have hstart : s = cycGet shards hn i0 0 := by
    rw [cycGet_zero shards hn i0 h0]
    exact hget.symm
  rw [hstart]
  obtain ⟨k, hk0, hkn, hwalk⟩ :=
    regressionWalk_cyc shards hn hnd hne trig i0 h0 shards.length 0 hn (by omega)
  refine ⟨?_, ?_, ?_, ?_⟩
  · rw [hwalk]
    exact (List.nodup_range' 0 (k + 1 - 0)).map_on (by
      intro x hx y hy hxy
      have hx2 := List.mem_range'_1.mp hx
      have hy2 := List.mem_range'_1.mp hy
      exact cycGet_inj shards hn hnd i0 x y (by omega) (by omega) hxy)
  · rw [hwalk, show k + 1 - 0 = k + 1 from rfl, List.range'_succ]
    rfl
  · rw [hwalk, show k + 1 - 0 = k + 1 from rfl, List.range'_succ]
    simp only [List.map_cons, List.tail_cons]
    intro hmem
    obtain ⟨t, ht, hteq⟩ := List.mem_map.mp hmem
    have ht2 := List.mem_range'_1.mp ht
    have := cycGet_inj shards hn hnd i0 t 0 (by omega) hn hteq
    omega
  · intro extra
    induction extra with
    | zero => rfl
    | succ e ihe =>
      rw [show shards.length + (e + 1) = (shards.length + e) + 1 from by omega]
      rw [regressionWalk_fuel_succ shards hn hnd hne trig i0 h0
        (shards.length + e) 0 hn (by omega)]
      exact ihe

/-- Witness for C7 on a three-shard ring where every shard triggers
regression. -/
theorem regression_walk_terminates_witness :
    (regressionWalk [("a", "c"), ("b", "a"), ("c", "b")] (fun _ => true) "a" "a" 3).Nodup ∧
    (regressionWalk [("a", "c"), ("b", "a"), ("c", "b")]
      (fun _ => true) "a" "a" 3).head? = some "a" ∧
    "a" ∉ (regressionWalk [("a", "c"), ("b", "a"), ("c", "b")]
      (fun _ => true) "a" "a" 3).tail ∧
    regressionWalk [("a", "c"), ("b", "a"), ("c", "b")] (fun _ => true) "a" "a" (3 + 2) =
      regressionWalk [("a", "c"), ("b", "a"), ("c", "b")] (fun _ => true) "a" "a" 3 :=
  ⟨(regression_walk_terminates ["a", "b", "c"] [("a", "c"), ("b", "a"), ("c", "b")]
      (fun _ => true) "a" (by decide) (by decide) rfl).1,
   (regression_walk_terminates ["a", "b", "c"] [("a", "c"), ("b", "a"), ("c", "b")]
      (fun _ => true) "a" (by decide) (by decide) rfl).2.1,
   (regression_walk_terminates ["a", "b", "c"] [("a", "c"), ("b", "a"), ("c", "b")]
      (fun _ => true) "a" (by decide) (by decide) rfl).2.2.1,
   (regression_walk_terminates ["a", "b", "c"] [("a", "c"), ("b", "a"), ("c", "b")]
      (fun _ => true) "a" (by decide) (by decide) rfl).2.2.2 2⟩

end Akubra
